import Mathlib

/-!
Shallow embedding of the recipe-adjustment backend (`src/app.py`) in Lean 4,
together with theorems settling the frozen claims about it.

Modelling conventions:
* Python floats are modelled as exact rationals (`ℚ`); float rounding error is
  not modelled.  Python ints are `ℤ`.
* Python strings are Lean `String`s.  `str.lower`, `str.strip` and the regex
  character classes are modelled on the ASCII range (the repository's data and
  all claims are ASCII; Python's Unicode-aware behaviour beyond ASCII is out of
  scope).
* `math.log` returns a float; its value is treated as an unspecified rational
  via a `pylog` parameter, since no claim depends on the numeric value of the
  logarithmic branch.
* Exceptions that Python catches locally are modelled with `Option`.
-/

set_option maxRecDepth 4000

/-! ## Python string primitives -/

/-- The ASCII whitespace characters recognised by Python's `str.strip` and the
regex class `\s` (space, tab, newline, carriage return, vertical tab, form feed). -/
def isPySpace (c : Char) : Bool :=
  c == ' ' || c == '\t' || c == '\n' || c == '\r' || c == Char.ofNat 11 || c == Char.ofNat 12

/-- ASCII letter, the regex class `[a-zA-Z]`. -/
def isAsciiLetter (c : Char) : Bool :=
  ('a' ≤ c && c ≤ 'z') || ('A' ≤ c && c ≤ 'Z')

/-- Python `str.lower`, ASCII fragment (maps `A`-`Z` to `a`-`z`). -/
def pyLower (s : String) : String :=
  String.mk (s.data.map Char.toLower)

/-- Python `str.strip` on a character list: drop leading and trailing whitespace. -/
def pyStripL (l : List Char) : List Char :=
  ((l.dropWhile isPySpace).reverse.dropWhile isPySpace).reverse

/-- Python `str.strip`. -/
def pyStrip (s : String) : String :=
  String.mk (pyStripL s.data)

/-- Python's substring test `pat in hay`. -/
def containsSub (hay pat : String) : Bool :=
  decide (pat.data <:+: hay.data)

/-! ## Python numeric primitives -/

/-- Python `round(x)` (no `ndigits`): round half to even, returning an int. -/
def pyRoundHalfEven (q : ℚ) : ℤ :=
  let f := ⌊q⌋
  if q - f < 1/2 then f
  else if 1/2 < q - f then f + 1
  else if f % 2 = 0 then f else f + 1

/-- Python `round(x, 2)`: round to two decimal places, half to even
(float representation error is not modelled). -/
def pyRound2 (q : ℚ) : ℚ :=
  (pyRoundHalfEven (q * 100) : ℚ) / 100

/-- Python `int(x)` on a number: truncation toward zero. -/
def pyIntTrunc (q : ℚ) : ℤ :=
  q.num.tdiv (q.den : ℤ)

/-- Python `float(str)`, restricted to the shapes occurring in the dataset:
optional sign, decimal digits with an optional decimal point (no exponent,
no `inf`/`nan`).  `none` models a raised `ValueError`. -/
def pyFloatOfString (s : String) : Option ℚ :=
  let cs := pyStripL s.data
  let body : List Char :=
    match cs with
    | '+' :: r => r
    | '-' :: r => r
    | r => r
  let neg : Bool := match cs with | '-' :: _ => true | _ => false
  let ip := body.takeWhile Char.isDigit
  let rest := body.drop ip.length
  let parsed : Option ℚ :=
    match rest with
    | [] => if ip.isEmpty then none else
        some (ip.foldl (fun a c => a * 10 + ((c.toNat - 48 : ℕ) : ℚ)) 0)
    | '.' :: fp =>
        if fp.all Char.isDigit && !(ip.isEmpty && fp.isEmpty) then
          some (ip.foldl (fun a c => a * 10 + ((c.toNat - 48 : ℕ) : ℚ)) 0
            + (fp.foldl (fun a c => a * 10 + ((c.toNat - 48 : ℕ) : ℚ)) 0) / (10 : ℚ) ^ fp.length)
        else none
    | _ => none
  parsed.map (fun v => if neg then -v else v)

/-! ## `Fraction.limit_denominator` (CPython `fractions.py`)

`to_mixed_fraction` calls the standard library's
`Fraction(val).limit_denominator(max_denominator)`; we embed CPython's
continued-fraction algorithm.  The `d ≤ 0` guard below is unreachable from the
call site (Python would never reach a zero remainder before the break, because
the input's denominator exceeds `max_denominator`); it exists only to make the
recursion total. -/

/-- Candidate selection at the end of `limit_denominator`:
`k = (max_denominator - q0) // q1`, then return whichever of
`(p0+k*p1)/(q0+k*q1)` and `p1/q1` is closer to the target (ties to the latter). -/
def ldSelect (maxd p0 q0 p1 q1 : ℤ) (target : ℚ) : ℚ :=
  let k := (maxd - q0).fdiv q1
  let bound1 := Rat.divInt (p0 + k * p1) (q0 + k * q1)
  let bound2 := Rat.divInt p1 q1
  if |bound2 - target| ≤ |bound1 - target| then bound2 else bound1

/-- The main loop of `limit_denominator`: walk the continued-fraction expansion
of `n/d`, maintaining the convergents, until the next denominator would exceed
`maxd`. -/
def ldLoop (maxd p0 q0 p1 q1 n d : ℤ) (target : ℚ) : ℚ :=
  if hd : d ≤ 0 then ldSelect maxd p0 q0 p1 q1 target
  else
    let a := n.fdiv d
    let q2 := q0 + a * q1
    if maxd < q2 then ldSelect maxd p0 q0 p1 q1 target
    else ldLoop maxd p1 q1 (p0 + a * p1) q2 d (n - a * d) target
termination_by d.toNat
decreasing_by
  have hd0 : 0 < d := lt_of_not_le hd
  have h1 : n - n.fdiv d * d = n % d := by
    rw [Int.fdiv_eq_ediv _ (le_of_lt hd0)]
    rw [Int.emod_def]; ring
  simp only [h1]
  have h2 : 0 ≤ n % d := Int.emod_nonneg n (ne_of_gt hd0)
  have h3 : n % d < d := Int.emod_lt_of_pos n hd0
  omega

/-- `Fraction(q).limit_denominator(maxd)`.  (Python raises for `maxd < 1`;
the only call site passes `8`, so that branch is modelled as the identity.) -/
def limitDen (q : ℚ) (maxd : ℤ) : ℚ :=
  if (q.den : ℤ) ≤ maxd then q
  else ldLoop maxd 0 1 1 0 q.num (q.den : ℤ) q

/-! ## Quantity formatter (`to_mixed_fraction`, `format_time`) -/

/-- Python `str(Fraction)`: `"num"` when the denominator is 1, else `"num/den"`. -/
def renderFrac (q : ℚ) : String :=
  if q.den = 1 then toString q.num else toString q.num ++ "/" ++ toString q.den

/-- `to_mixed_fraction(val, precision)` from `src/app.py`:
`frac = Fraction(val).limit_denominator(int(1/precision))`;
`whole, remainder = divmod(frac.numerator, frac.denominator)`;
render `whole`, the remainder fraction, or `"<whole> and <rem>"`. -/
def to_mixed_fraction (val : ℚ) (precision : ℚ) : String :=
  let maxd := pyIntTrunc (1 / precision)
  let frac := limitDen val maxd
  let whole := frac.num.fdiv (frac.den : ℤ)
  let remainder := frac.num.fmod (frac.den : ℤ)
  let rem := Rat.divInt remainder (frac.den : ℤ)
  if rem = 0 then toString whole
  else if whole = 0 then renderFrac rem
  else toString whole ++ " and " ++ renderFrac rem

/-- `format_time(minutes)` from `src/app.py`, numeric path:
`m = int(round(float(minutes)))`; `hrs, mins = divmod(m, 60)`;
hour part `"<hrs> hr[s] "` when `hrs` is truthy, minute part `"<mins> min[s]"`
when `mins` is truthy, pluralising exactly when the value exceeds 1. -/
def format_time (minutes : ℚ) : String :=
  let m := pyRoundHalfEven minutes
  let hrs := m.fdiv 60
  let mins := m.fmod 60
  (if hrs ≠ 0 then toString hrs ++ " hr" ++ (if 1 < hrs then "s" else "") ++ " " else "")
    ++ (if mins ≠ 0 then toString mins ++ " min" ++ (if 1 < mins then "s" else "") else "")

/-- `format_time` applied to a raw cell value: Python first coerces with
`float(...)`; on failure the `except` branch returns `str(minutes)` unchanged. -/
def format_time_any (s : String) : String :=
  match pyFloatOfString s with
  | some q => format_time q
  | none => s

/-! ## Ingredient line parser (`parse_ingredient_line`)

The Python code splits the raw cell on `,` and newline, strips each piece,
drops empty pieces, and matches each remaining fragment against
`re.match(r"(?P<qty>[\d\.\/]+)?\s*(?P<unit>[a-zA-Z])\s(?P<name>.+)", it)`.
The matcher below implements exactly that anchored regex with its
backtracking order: the optional greedy `qty` run is tried longest first,
then absent; for each, the greedy `\s*` run is tried longest first.  `.+`
takes the whole remainder (fragments cannot contain a newline, having been
produced by splitting on newlines). -/

/-- The regex class `[\d\.\/]` of the `qty` group. -/
def isQtyChar (c : Char) : Bool :=
  c.isDigit || c == '.' || c == '/'

/-- Attempt `(?P<unit>[a-zA-Z])\s(?P<name>.+)` at offset `k` of `rest`
(the `\s*` having consumed `k` whitespace characters). -/
def checkUnitAt (rest : List Char) (k : ℕ) : Option (Char × List Char) :=
  match rest.drop k with
  | u :: s :: c :: cs =>
      if isAsciiLetter u && isPySpace s then some (u, c :: cs) else none
  | _ => none

/-- Backtracking over the greedy `\s*`: try `k` consumed whitespace
characters, then `k-1`, ..., then `0`. -/
def tryUnit (rest : List Char) : ℕ → Option (Char × List Char)
  | 0 => checkUnitAt rest 0
  | k + 1 => (checkUnitAt rest (k + 1)).orElse (fun _ => tryUnit rest k)

/-- Backtracking over the optional greedy `qty` group: try a `qty` of length
`l`, then `l-1`, ..., then `1`, then the group absent.  Invoked with `l` the
length of the maximal `[\d\.\/]` run, so every tried slice lies in the class. -/
def tryQty (f : List Char) : ℕ → Option (Option (List Char) × Char × List Char)
  | 0 =>
      (tryUnit f (f.takeWhile isPySpace).length).map (fun p => (none, p.1, p.2))
  | l + 1 =>
      (((tryUnit (f.drop (l + 1)) ((f.drop (l + 1)).takeWhile isPySpace).length).map
        (fun p => (some (f.take (l + 1)), p.1, p.2))).orElse
        (fun _ => tryQty f l))

/-- `re.match` of the ingredient-fragment pattern against a fragment. -/
def matchFragment (f : List Char) : Option (Option (List Char) × Char × List Char) :=
  tryQty f (f.takeWhile isQtyChar).length

/-! ### `eval` of the numeric token

The `qty` token (characters from `[\d\.\/]`) is passed to Python `eval`,
with any exception caught and replaced by the default amount 1.  Over this
character set an expression is a chain of numeric literals separated by `/`
(true division) or `//` (floor division).  We model evaluation exactly for
numeric results; the pathological token `"..."` (Python's `Ellipsis`, which
is not numeric and would only blow up later) is modelled as a failure. -/

/-- Characters a numeric literal may contain. -/
def isLitChar (c : Char) : Bool :=
  c.isDigit || c == '.'

/-- Decimal digit-run value. -/
def digitsVal (cs : List Char) : ℚ :=
  ((cs.foldl (fun a c => a * 10 + (c.toNat - 48)) 0 : ℕ) : ℚ)

/-- Value of a Python numeric literal over digits and dots.  Python 3 rejects
an integer literal with a leading zero unless all digits are zero; float
literals allow `"1."`, `".5"` and leading zeros; two or more dots are
rejected. -/
def litVal (cs : List Char) : Option ℚ :=
  if cs.isEmpty then none
  else if cs.all Char.isDigit then
    if cs.head? = some '0' && cs.any (· != '0') then none else some (digitsVal cs)
  else if cs.count '.' = 1 then
    let ip := cs.takeWhile (· != '.')
    let fp := (cs.dropWhile (· != '.')).drop 1
    if ip.all Char.isDigit && fp.all Char.isDigit && !(ip.isEmpty && fp.isEmpty) then
      some (digitsVal ip + digitsVal fp / (10 : ℚ) ^ fp.length)
    else none
  else none

/-- Evaluate the rest of a division chain, left-associatively.  `none` models
a raised exception (syntax error or division by zero). -/
def evalOps (acc : ℚ) (cs : List Char) : Option ℚ :=
  match cs with
  | [] => some acc
  | '/' :: '/' :: rest =>
      match litVal (rest.takeWhile isLitChar) with
      | none => none
      | some v =>
          if v = 0 then none
          else evalOps ((⌊acc / v⌋ : ℤ) : ℚ) (rest.dropWhile isLitChar)
  | '/' :: rest =>
      match litVal (rest.takeWhile isLitChar) with
      | none => none
      | some v =>
          if v = 0 then none else evalOps (acc / v) (rest.dropWhile isLitChar)
  | _ => none
termination_by cs.length
decreasing_by
  · have := (rest.dropWhile_sublist isLitChar).length_le; simp; omega
  · have := (rest.dropWhile_sublist isLitChar).length_le; simp; omega

/-- Python `eval` on a `qty` token. -/
def pyEvalToken (t : String) : Option ℚ :=
  match litVal (t.data.takeWhile isLitChar) with
  | none => none
  | some v => evalOps v (t.data.dropWhile isLitChar)

/-! ### Assembling entries -/

/-- One parsed ingredient entry (the dict built by `parse_ingredient_line`). -/
structure Ingredient where
  amount : ℚ
  unit : String
  name : String
  formattedAmount : String
deriving DecidableEq, Repr

/-- Display string for `f"{round(amt, 2)}"`.  (Python renders an int amount
without a decimal point and a float amount with one; no claim inspects this
field, and the scaling engine overwrites it.) -/
def renderRound2 (q : ℚ) : String :=
  let r := pyRound2 q
  if r.den = 1 then toString r.num
  else toString r.num ++ "/" ++ toString r.den

/-- Build the entry dict for one matched fragment: the amount is `eval` of the
`qty` group when present and evaluable, else 1; unit and name are stripped. -/
def fragEntry (it : String) : Option Ingredient :=
  (matchFragment it.data).map fun m =>
    let amt : ℚ :=
      match m.1 with
      | none => 1
      | some t => (pyEvalToken (String.mk t)).getD 1
    { amount := amt
      unit := pyStrip (String.mk [m.2.1])
      name := pyStrip (String.mk m.2.2)
      formattedAmount := renderRound2 amt }

/-- The fragments of a raw cell: split on `,` and newline, strip, drop empties. -/
def fragmentsOf (line : String) : List String :=
  ((line.split fun c => c == ',' || c == '\n').map pyStrip).filter (fun i => i != "")

/-- `parse_ingredient_line` from `src/app.py`. -/
def parse_ingredient_line (line : String) : List Ingredient :=
  (fragmentsOf line).filterMap fragEntry

/-! ## Scaling engine -/

/-- Keyword sets from `src/app.py`. -/
def LINEAR_INGREDIENTS : List String :=
  ["rice", "flour", "water", "milk", "oil", "ghee", "sugar", "jaggery", "coconut", "curd"]

def LOG_INGREDIENTS : List String :=
  ["salt", "spice", "turmeric", "chilli", "pepper", "masala"]

def FIXED_INGREDIENTS : List String :=
  ["cardamom", "cloves", "cinnamon", "bay leaf", "mustard", "curry leaves"]

def BASE_SERVINGS : ℤ := 2

/-- `scale_ingredient(item, servings, base=BASE_SERVINGS)` from `src/app.py`.
`pylog` stands for the float-valued `math.log`; no claim depends on its
values, so it is passed in abstractly (`log(servings)/log(base)` becomes
`pylog servings / pylog base`).  The domain error `math.log` raises for
non-positive arguments is outside this model. -/
def scale_ingredient (pylog : ℚ → ℚ) (item : Ingredient) (servings : ℤ) : Ingredient :=
  let name := pyLower item.name
  let qty := item.amount
  let scaled : ℚ :=
    if FIXED_INGREDIENTS.any (fun k => containsSub name k) then qty
    else if LOG_INGREDIENTS.any (fun k => containsSub name k) then
      qty * (pylog (servings : ℚ) / pylog (BASE_SERVINGS : ℚ))
    else qty * ((servings : ℚ) / (BASE_SERVINGS : ℚ))
  { item with
      amount := pyRound2 scaled
      formattedAmount := to_mixed_fraction scaled (1/8) }

/-- `scale_cooking_time(t, servings, base=BASE_SERVINGS)`: linear scaling of a
raw time cell; `none` models the `"N/A"` sentinel returned when `float(t)`
raises. -/
def scale_cooking_time (t : String) (servings : ℤ) : Option ℤ :=
  (pyFloatOfString t).map fun q => pyRoundHalfEven (q * ((servings : ℚ) / (BASE_SERVINGS : ℚ)))

/-! ## Recipe resolver (`detect_row`)

The dataset `xls` is a dict of sheet-name → DataFrame; a DataFrame is a
column list plus rows, each row a list of cell values aligned with the
columns.  Cell values are modelled post-`astype(str)`, i.e. as strings
(pandas renders a missing cell as `"nan"`). -/

/-- One sheet: its column identifiers and its rows (cells as strings,
positionally aligned with `cols`). -/
structure Sheet where
  cols : List String
  rows : List (List String)
deriving DecidableEq, Repr

/-- Cell of `row` in column `c` (as `astype(str)` renders it). -/
def cellStr (cols : List String) (row : List String) (c : String) : String :=
  match cols.findIdx? (· == c) with
  | some i => row.getD i "nan"
  | none => "nan"

/-- `LANGUAGE_SUFFIX` from `src/app.py`, in dict insertion order. -/
def LANGUAGE_SUFFIX : List (String × String) :=
  [("TamilName", "ta"), ("tamilname", "ta"), ("hindiName", "hn"),
   ("malayalamName", "kl"), ("kannadaName", "kn"), ("teluguName", "te"),
   ("frenchName", "french"), ("spanishName", "spanish"), ("germanName", "german")]

/-- A successful resolution: sheet name, matched name column, language code,
and the first matching row (Python returns the whole filtered frame `hit` and
the caller takes `hit.iloc[0]`; the row's column index is carried along). -/
structure DetectHit where
  sheet : String
  langCol : String
  langCode : String
  cols : List String
  row : List String
deriving DecidableEq, Repr

/-- Try one name column in one sheet: if the column exists, filter the rows
whose cell, stringified, lowercased and stripped, equals the lowered query. -/
def tryNameCol (sheetName : String) (sh : Sheet) (lower : String)
    (col code : String) : Option DetectHit :=
  if sh.cols.contains col then
    (sh.rows.find? (fun r => pyStrip (pyLower (cellStr sh.cols r col)) == lower)).map
      (fun r => ⟨sheetName, col, code, sh.cols, r⟩)
  else none

/-- Body of `detect_row` after the query has been lowercased: scan sheets in
order; in each sheet scan the multilingual columns in `LANGUAGE_SUFFIX` order,
then fall back to a plain `name`/`Name` column bound to `"en"`. -/
def detectRowLower (xls : List (String × Sheet)) (lower : String) : Option DetectHit :=
  xls.findSome? fun sd =>
    (LANGUAGE_SUFFIX.findSome? fun lc => tryNameCol sd.1 sd.2 lower lc.1 lc.2).orElse
      fun _ => [("name", "en"), ("Name", "en")].findSome? fun lc =>
        tryNameCol sd.1 sd.2 lower lc.1 lc.2

/-- `detect_row(recipe_name)` from `src/app.py`: the query is lowercased
(`lower = recipe_name.lower()`) — and not stripped — before matching. -/
def detect_row (xls : List (String × Sheet)) (recipe_name : String) : Option DetectHit :=
  detectRowLower xls (pyLower recipe_name)

/-! ## Adjustment orchestrator (`adjust_ingredients`)

The HTTP handler minus transport concerns (auth, JSON decoding): it strips the
requested name, resolves the row, discovers the ingredient and cooking-time
columns, and assembles the response.  The three outcomes are the 404
"Recipe not found" error, the 500 "Ingredient column not found" error, and the
success payload. -/

/-- The JSON success payload of `/adjust_ingredients`. -/
structure AdjustPayload where
  recipe : String
  base_servings : ℤ
  new_servings : ℤ
  original_time : String
  adjusted_time : String
  ingredients : List Ingredient
deriving DecidableEq, Repr

/-- Outcome of the adjustment operation: HTTP 404, HTTP 500, or HTTP 200. -/
inductive AdjustResult where
  | notFound
  | schemaError
  | ok (payload : AdjustPayload)
deriving DecidableEq, Repr

/-- `adjust_ingredients` from `src/app.py` (transport stripped). -/
def adjust_ingredients (pylog : ℚ → ℚ) (xls : List (String × Sheet))
    (recipe_name : String) (servings : ℤ) : AdjustResult :=
  let recipe := pyStrip recipe_name
  match detect_row xls recipe with
  | none => .notFound
  | some hit =>
    let ingCol :=
      (hit.cols.find? fun c => containsSub (pyLower c) ("ingredients_" ++ hit.langCode)).orElse
        fun _ => hit.cols.find? fun c => containsSub (pyLower c) "ingredients_en"
    match ingCol with
    | none => .schemaError
    | some ic =>
      let cookCol := hit.cols.find? fun c =>
        pyLower c == "cooking" || pyLower c == "cookingtime"
      let originalTime : String :=
        match cookCol with
        | some cc => cellStr hit.cols hit.row cc
        | none => "N/A"
      let newTime := scale_cooking_time originalTime servings
      let baseIng := parse_ingredient_line (cellStr hit.cols hit.row ic)
      .ok
        { recipe := recipe
          base_servings := BASE_SERVINGS
          new_servings := servings
          original_time := format_time_any originalTime
          adjusted_time :=
            match newTime with
            | some n => format_time (n : ℚ)
            | none => format_time_any "N/A"
          ingredients := baseIng.map (fun i => scale_ingredient pylog i servings) }

/-! ## Helper lemmas -/

/-- `round` of an integer is that integer. -/
theorem pyRoundHalfEven_intCast (n : ℤ) : pyRoundHalfEven ((n : ℚ)) = n := by
  unfold pyRoundHalfEven
  rw [Int.floor_intCast]
  norm_num

/-! ## Claim C3: `format_time` -/

/-- Claim C3 as frozen is false: `format_time 60` is `"1 hr "`, with a
trailing space from the hour-part template, not `"1 hr"`. -/
theorem claim3_counterexample :
    format_time 60 = "1 hr " ∧ format_time 60 ≠ "1 hr" := by
  constructor <;> with_unfolding_all decide

/-- Claim C3, amended (the value at 60 carries the trailing space of the hour
part): `format_time 90 = "1 hr 30 mins"`, `format_time 60 = "1 hr "`,
`format_time 45 = "45 mins"`, `format_time 0 = ""`; and in general, for a
whole number of minutes, the hour part `"<h> hr[s] "` appears exactly when
`h = m / 60 > 0` and the minute part `"<m'> min[s]"` exactly when
`m' = m % 60 > 0`, each pluralised exactly when its value exceeds 1. -/
theorem claim3_amended :
    format_time 90 = "1 hr 30 mins" ∧ format_time 60 = "1 hr " ∧
    format_time 45 = "45 mins" ∧ format_time 0 = "" ∧
    ∀ m : ℕ, format_time ((m : ℚ)) =
      (if m / 60 ≠ 0 then
        toString (m / 60) ++ " hr" ++ (if 1 < m / 60 then "s" else "") ++ " "
       else "")
      ++ (if m % 60 ≠ 0 then
        toString (m % 60) ++ " min" ++ (if 1 < m % 60 then "s" else "")
       else "") := by
  refine ⟨by with_unfolding_all decide, by with_unfolding_all decide, by with_unfolding_all decide, by with_unfolding_all decide, fun m => ?_⟩
  unfold format_time
  have h0 : ((m : ℚ)) = (((m : ℤ) : ℚ)) := by push_cast; ring
  rw [h0, pyRoundHalfEven_intCast]
  have h1 : ((m : ℤ)).fdiv 60 = ((m / 60 : ℕ) : ℤ) := (Int.ofNat_fdiv m 60).symm
  have h2 : ((m : ℤ)).fmod 60 = ((m % 60 : ℕ) : ℤ) := (Int.ofNat_fmod m 60).symm
  have h3 : ∀ k : ℕ, toString ((k : ℤ)) = toString k := fun k => rfl
  simp only [h1, h2, h3, ne_eq, Int.natCast_eq_zero, Nat.one_lt_cast]

/-! ## Claim C4: `to_mixed_fraction` -/

/-- The denominator of `Rat.divInt a b` is at most 8 for positive `b ≤ 8`. -/
theorem divInt_den_le (a b : ℤ) (hb : 0 < b) (hb8 : b ≤ 8) :
    ((Rat.divInt a b).den : ℤ) ≤ 8 := by
  have h := Rat.den_dvd a b
  have := Int.le_of_dvd hb h
  omega

/-- Under the loop invariant `0 ≤ q0 ≤ 8`, `1 ≤ q1 ≤ 8`, the candidate
selected at the end of `limit_denominator` has denominator at most 8. -/
theorem ldSelect_den_le (p0 q0 p1 q1 : ℤ) (t : ℚ)
    (h00 : 0 ≤ q0) (h08 : q0 ≤ 8) (h11 : 1 ≤ q1) (h18 : q1 ≤ 8) :
    ((ldSelect 8 p0 q0 p1 q1 t).den : ℤ) ≤ 8 := by
  have hq1 : (0:ℤ) < q1 := h11
  have hkd : (8 - q0).fdiv q1 = (8 - q0) / q1 := Int.fdiv_eq_ediv _ (le_of_lt hq1)
  have hk0 : 0 ≤ (8 - q0).fdiv q1 := Int.fdiv_nonneg (by omega) (by omega)
  have hkm : (8 - q0).fdiv q1 * q1 ≤ 8 - q0 := by
    rw [hkd]; exact Int.ediv_mul_le _ (by omega)
  have hk1 : q0 = 0 → 1 ≤ (8 - q0).fdiv q1 := by
    intro h0; rw [hkd, h0]
    rw [Int.le_ediv_iff_mul_le hq1]; omega
  have hD1 : 1 ≤ q0 + (8 - q0).fdiv q1 * q1 := by
    rcases eq_or_lt_of_le h00 with h | h
    · have := hk1 h.symm
      nlinarith
    · nlinarith
  unfold ldSelect
  dsimp only
  split
  · exact divInt_den_le p1 q1 hq1 h18
  · exact divInt_den_le _ _ (by omega) (by omega)

/-- Loop invariant for `ldLoop`: with `0 ≤ q0 ≤ 8`, `1 ≤ q1 ≤ 8` and
`0 ≤ d < n`, the result has denominator at most 8. -/
theorem ldLoop_den_le (fuel : ℕ) :
    ∀ (d n p0 q0 p1 q1 : ℤ) (t : ℚ), d.toNat ≤ fuel →
    0 ≤ q0 → q0 ≤ 8 → 1 ≤ q1 → q1 ≤ 8 → 0 ≤ d → d < n →
    ((ldLoop 8 p0 q0 p1 q1 n d t).den : ℤ) ≤ 8 := by
  induction fuel with
  | zero =>
    intro d n p0 q0 p1 q1 t hfuel h00 h08 h11 h18 hd0 hdn
    have hd : d = 0 := by omega
    subst hd
    rw [ldLoop]
    rw [dif_pos (le_refl (0:ℤ))]
    exact ldSelect_den_le p0 q0 p1 q1 t h00 h08 h11 h18
  | succ k ih =>
    intro d n p0 q0 p1 q1 t hfuel h00 h08 h11 h18 hd0 hdn
    rw [ldLoop]
    split
    · exact ldSelect_den_le p0 q0 p1 q1 t h00 h08 h11 h18
    · rename_i hdpos
      have hd : (0:ℤ) < d := by omega
      dsimp only
      split
      · exact ldSelect_den_le p0 q0 p1 q1 t h00 h08 h11 h18
      · rename_i hq2
        have ha1 : 1 ≤ n.fdiv d := by
          rw [Int.fdiv_eq_ediv _ (le_of_lt hd)]
          rw [Int.le_ediv_iff_mul_le hd]; omega
        have hmod : n - n.fdiv d * d = n % d := by
          rw [Int.fdiv_eq_ediv _ (le_of_lt hd), Int.emod_def]; ring
        have hm0 : 0 ≤ n % d := Int.emod_nonneg n (by omega)
        have hmlt : n % d < d := Int.emod_lt_of_pos n hd
        apply ih
        · omega
        · omega
        · omega
        · nlinarith
        · push_neg at hq2; exact hq2
        · omega
        · omega

/-- For every rational, `limit_denominator(8)` yields a fraction with
denominator at most 8. -/
theorem limitDen_den_le (q : ℚ) : ((limitDen q 8).den : ℤ) ≤ 8 := by
  unfold limitDen
  split
  · rename_i h; exact h
  · rename_i hden
    rw [ldLoop]
    have hdpos : ¬ ((q.den : ℤ) ≤ 0) := by
      have := q.den_pos; omega
    rw [dif_neg hdpos]
    dsimp only
    have hq2 : ¬ ((8:ℤ) < 1 + q.num.fdiv (q.den : ℤ) * 0) := by omega
    rw [mul_zero, add_zero] at hq2 ⊢
    rw [if_neg hq2]
    have hden8 : (8:ℤ) < (q.den : ℤ) := by omega
    have hmod : q.num - q.num.fdiv (q.den : ℤ) * (q.den : ℤ) = q.num % (q.den : ℤ) := by
      rw [Int.fdiv_eq_ediv _ (by omega), Int.emod_def]; ring
    have hm0 : 0 ≤ q.num % (q.den : ℤ) := Int.emod_nonneg q.num (by omega)
    have hmlt : q.num % (q.den : ℤ) < (q.den : ℤ) := Int.emod_lt_of_pos q.num (by omega)
    apply ldLoop_den_le (q.den)
    all_goals omega

/-- Claim C4 as frozen is false: the approximating fraction produced by
`limit_denominator(8)` need not have a denominator dividing 8.  At `1/3` the
code returns `"1/3"` (denominator 3), not the nearest eighth `"3/8"`. -/
theorem claim4_counterexample :
    to_mixed_fraction (1/3) (1/8) = "1/3" ∧
    to_mixed_fraction (1/3) (1/8) ≠ "3/8" ∧
    ¬ ((limitDen (1/3) 8).den ∣ 8) := by
  refine ⟨?_, ?_, ?_⟩ <;> with_unfolding_all decide

/-- Claim C4, amended: `to_mixed_fraction(value, 1/8)` approximates the value
by `Fraction(value).limit_denominator(8)` — the closest fraction with
denominator at most 8 (not necessarily dividing 8) — and renders its
floor-divmod decomposition as the whole part alone when the remainder is
zero, the proper fraction alone when the whole part is zero, and
`"<whole> and <fraction>"` otherwise; `to_mixed_fraction(0) = "0"`,
`to_mixed_fraction(1.5) = "1 and 1/2"`, `to_mixed_fraction(0.5) = "1/2"`. -/
theorem claim4_amended :
    (∀ v : ℚ, ((limitDen v 8).den : ℤ) ≤ 8) ∧
    (∀ v : ℚ, 0 ≤ v →
      to_mixed_fraction v (1/8) =
        (if Rat.divInt ((limitDen v 8).num.fmod ((limitDen v 8).den : ℤ)) ((limitDen v 8).den : ℤ) = 0 then
          toString ((limitDen v 8).num.fdiv ((limitDen v 8).den : ℤ))
         else if (limitDen v 8).num.fdiv ((limitDen v 8).den : ℤ) = 0 then
          renderFrac (Rat.divInt ((limitDen v 8).num.fmod ((limitDen v 8).den : ℤ)) ((limitDen v 8).den : ℤ))
         else toString ((limitDen v 8).num.fdiv ((limitDen v 8).den : ℤ)) ++ " and " ++
          renderFrac (Rat.divInt ((limitDen v 8).num.fmod ((limitDen v 8).den : ℤ)) ((limitDen v 8).den : ℤ)))) ∧
    to_mixed_fraction 0 (1/8) = "0" ∧
    to_mixed_fraction (3/2) (1/8) = "1 and 1/2" ∧
    to_mixed_fraction (1/2) (1/8) = "1/2" := by
  refine ⟨limitDen_den_le, ?_, ?_, ?_, ?_⟩
  · intro v hv
    unfold to_mixed_fraction
    rw [show pyIntTrunc (1 / (1/8 : ℚ)) = 8 from by with_unfolding_all decide]
  · with_unfolding_all decide
  · with_unfolding_all decide
  · with_unfolding_all decide

/-- Witness for the amended claim C4 at the concrete input `1.5`. -/
theorem claim4_witness :
    0 ≤ (3/2 : ℚ) ∧ to_mixed_fraction (3/2) (1/8) = "1 and 1/2" := by
  refine ⟨by norm_num, ?_⟩
  have h := claim4_amended.2.1 (3/2) (by norm_num)
  rw [h]
  with_unfolding_all decide

/-! ## Claims C5, C6, C9: `scale_ingredient` -/

/-- `round(x, 2)` is the identity on amounts with at most two decimal places. -/
theorem pyRound2_of_hundredths (k : ℤ) : pyRound2 ((k : ℚ) / 100) = (k : ℚ) / 100 := by
  unfold pyRound2
  rw [show ((k : ℚ) / 100) * 100 = (k : ℚ) from by field_simp]
  rw [pyRoundHalfEven_intCast]

/-- Claim C5 as frozen is false: the Fixed branch still applies
`round(scaled, 2)`, so an amount with more than two decimal places changes.
At serving count 4 (≥ 1) the parsed amount `1/3` of a `cardamom` entry
becomes `0.33`. -/
theorem claim5_counterexample :
    (1:ℤ) ≤ 4 ∧
    (FIXED_INGREDIENTS.any fun k => containsSub (pyLower "cardamom") k) = true ∧
    (scale_ingredient (fun _ => 0) ⟨1/3, "t", "cardamom", ""⟩ 4).amount = 33/100 ∧
    (scale_ingredient (fun _ => 0) ⟨1/3, "t", "cardamom", ""⟩ 4).amount ≠ 1/3 := by
  refine ⟨?_, ?_, ?_, ?_⟩ <;> with_unfolding_all decide

/-- Claim C5, amended: for every serving count ≥ 1 and every entry whose name
contains a Fixed-set keyword, `scale_ingredient` returns
`round(amount, 2)` — which equals the original amount exactly when that
amount has at most two decimal places. -/
theorem claim5_amended (pylog : ℚ → ℚ) (item : Ingredient) (s : ℤ)
    (hs : 1 ≤ s)
    (hfix : (FIXED_INGREDIENTS.any fun k => containsSub (pyLower item.name) k) = true) :
    (scale_ingredient pylog item s).amount = pyRound2 item.amount ∧
    ((∃ k : ℤ, item.amount = (k : ℚ) / 100) →
      (scale_ingredient pylog item s).amount = item.amount) := by
  have h1 : (scale_ingredient pylog item s).amount = pyRound2 item.amount := by
    unfold scale_ingredient
    simp only [hfix, if_true]
  refine ⟨h1, ?_⟩
  rintro ⟨k, hk⟩
  rw [h1, hk, pyRound2_of_hundredths]

/-- Witness for the amended claim C5: a fixed-class entry with a two-decimal
amount is returned unchanged at serving count 3. -/
theorem claim5_witness :
    (1:ℤ) ≤ 3 ∧
    (FIXED_INGREDIENTS.any fun k => containsSub (pyLower "cardamom pods") k) = true ∧
    (scale_ingredient (fun _ => 0) ⟨2, "t", "cardamom pods", ""⟩ 3).amount = 2 := by
  refine ⟨by decide, by with_unfolding_all decide, ?_⟩
  have h := claim5_amended (fun _ => 0) ⟨2, "t", "cardamom pods", ""⟩ 3
    (by decide) (by with_unfolding_all decide)
  rw [h.2 ⟨200, by norm_num⟩]

/-- Claim C6: for every entry classified Linear (no Fixed-set and no
Logarithmic-set keyword occurs in its lowercased name) and every serving
count, the scaled amount is `round(amount * servings / 2, 2)`. -/
theorem claim6_linear_amount (pylog : ℚ → ℚ) (item : Ingredient) (s : ℤ)
    (hfix : (FIXED_INGREDIENTS.any fun k => containsSub (pyLower item.name) k) = false)
    (hlog : (LOG_INGREDIENTS.any fun k => containsSub (pyLower item.name) k) = false) :
    (scale_ingredient pylog item s).amount = pyRound2 (item.amount * (s : ℚ) / 2) := by
  unfold scale_ingredient
  simp only [hfix, hlog, if_false]
  unfold BASE_SERVINGS
  norm_num [mul_div_assoc]

/-- Witness for claim C6: a rice entry of amount 2 at serving count 3 scales
to `round(2 * 3 / 2, 2) = 3`. -/
theorem claim6_witness :
    (scale_ingredient (fun _ => 0) ⟨2, "c", "rice", ""⟩ 3).amount
      = pyRound2 ((2 : ℚ) * ((3:ℤ) : ℚ) / 2) ∧
    (scale_ingredient (fun _ => 0) ⟨2, "c", "rice", ""⟩ 3).amount = 3 := by
  constructor
  · exact claim6_linear_amount (fun _ => 0) ⟨2, "c", "rice", ""⟩ 3
      (by with_unfolding_all decide) (by with_unfolding_all decide)
  · with_unfolding_all decide

/-- Claim C9: `scale_ingredient` preserves the `unit` and `name` fields of
its input entry (only `amount` and `formattedAmount` are rebuilt). -/
theorem claim9_frame (pylog : ℚ → ℚ) (item : Ingredient) (s : ℤ) :
    (scale_ingredient pylog item s).unit = item.unit ∧
    (scale_ingredient pylog item s).name = item.name :=
  ⟨rfl, rfl⟩

/-! ## Claim C2: `detect_row` -/

/-- A one-sheet dataset whose single row stores the name `"pongal"`. -/
def pongalXls : List (String × Sheet) :=
  [("Sheet1", ⟨["name"], [["pongal"]]⟩)]

/-- Claim C2 as frozen is false: `detect_row` lowercases the query but does
not strip it, so `detect_row("  Pongal ")` fails to match the stored name
`"pongal"` (only the stored cell values are stripped). -/
theorem claim2_counterexample :
    detect_row pongalXls "  Pongal " = none ∧
    detect_row pongalXls "Pongal" ≠ none := by
  constructor <;> decide

/-- Claim C2, amended: the resolver normalizes the query by lowercasing only
(stripping is applied to the stored cell values, and the HTTP handler strips
the query before calling the resolver).  Hence two queries with the same
lowercasing resolve identically — case-insensitivity holds — and
`detect_row("Pongal")` finds the row whose name cell is `"pongal"`, while
`detect_row("  Pongal ")` does not. -/
theorem claim2_amended :
    (∀ (xls : List (String × Sheet)) (q₁ q₂ : String),
      pyLower q₁ = pyLower q₂ → detect_row xls q₁ = detect_row xls q₂) ∧
    detect_row pongalXls "Pongal" =
      some ⟨"Sheet1", "name", "en", ["name"], ["pongal"]⟩ ∧
    detect_row pongalXls "  Pongal " = none := by
  refine ⟨?_, by decide, by decide⟩
  intro xls q₁ q₂ h
  unfold detect_row
  rw [h]

/-- Witness for the amended claim C2: the queries `"PONGAL"` and `"pongal"`
have the same lowercasing and resolve identically. -/
theorem claim2_witness :
    pyLower "PONGAL" = pyLower "pongal" ∧
    detect_row pongalXls "PONGAL" = detect_row pongalXls "pongal" :=
  ⟨by decide, claim2_amended.1 pongalXls "PONGAL" "pongal" (by decide)⟩

/-! ## Claim C7: missing ingredient column -/

/-- Claim C7: when a row is matched but no column of that row contains
`ingredients_<languageCode>` nor `ingredients_en` (case-insensitively), the
adjustment operation returns the schema error (HTTP 500), not the
recipe-not-found error (HTTP 404). -/
theorem claim7_schema_error (pylog : ℚ → ℚ) (xls : List (String × Sheet))
    (recipe : String) (s : ℤ) (hit : DetectHit)
    (hdet : detect_row xls (pyStrip recipe) = some hit)
    (hlang : ∀ c ∈ hit.cols,
      containsSub (pyLower c) ("ingredients_" ++ hit.langCode) = false)
    (hen : ∀ c ∈ hit.cols, containsSub (pyLower c) "ingredients_en" = false) :
    adjust_ingredients pylog xls recipe s = .schemaError ∧
    adjust_ingredients pylog xls recipe s ≠ .notFound := by
  have hfind1 : (hit.cols.find? fun c =>
      containsSub (pyLower c) ("ingredients_" ++ hit.langCode)) = none := by
    rw [List.find?_eq_none]
    intro c hc
    simp [hlang c hc]
  have hfind2 : (hit.cols.find? fun c => containsSub (pyLower c) "ingredients_en") = none := by
    rw [List.find?_eq_none]
    intro c hc
    simp [hen c hc]
  have h : adjust_ingredients pylog xls recipe s = .schemaError := by
    unfold adjust_ingredients
    dsimp only
    rw [hdet]
    dsimp only
    rw [hfind1, hfind2]
    rfl
  exact ⟨h, by rw [h]; intro hcon; cases hcon⟩

/-- A dataset whose matched row has no ingredient column at all. -/
def noIngredientXls : List (String × Sheet) :=
  [("S", ⟨["name", "cooking"], [["pongal", "30"]]⟩)]

/-- Witness for claim C7: requesting `"pongal"` from a sheet with columns
`name` and `cooking` only yields the schema error. -/
theorem claim7_witness :
    detect_row noIngredientXls (pyStrip "pongal") =
      some ⟨"S", "name", "en", ["name", "cooking"], ["pongal", "30"]⟩ ∧
    adjust_ingredients (fun _ => 0) noIngredientXls "pongal" 4 = .schemaError := by
  refine ⟨by decide, ?_⟩
  exact (claim7_schema_error (fun _ => 0) noIngredientXls "pongal" 4
    ⟨"S", "name", "en", ["name", "cooking"], ["pongal", "30"]⟩
    (by decide) (by decide) (by decide)).1

/-! ## Claims C1, C8, C10: `parse_ingredient_line` -/

/-- Claim C1 is refuted by the code as written: the regex accepts exactly one
unit letter followed by a mandatory space, so neither `"2 cup rice"` nor
`"1/2 tsp salt"` matches, and the whole line parses to the empty list (while
the single-letter-unit variant of the same line does parse). -/
theorem claim1_parse_example_empty :
    parse_ingredient_line "2 cup rice, 1/2 tsp salt" = [] ∧
    parse_ingredient_line "2 c rice, 1/2 t salt" ≠ [] := by
  constructor <;> with_unfolding_all decide

/-- A numeric literal evaluates to a non-negative value. -/
theorem digitsVal_nonneg (cs : List Char) : 0 ≤ digitsVal cs := Nat.cast_nonneg _

theorem litVal_nonneg (cs : List Char) (v : ℚ) (h : litVal cs = some v) : 0 ≤ v := by
  unfold litVal at h
  dsimp only at h
  split_ifs at h
  all_goals try cases h
  · exact digitsVal_nonneg cs
  · have h1 := digitsVal_nonneg (cs.takeWhile (· != '.'))
    have h2 := digitsVal_nonneg ((cs.dropWhile (· != '.')).drop 1)
    positivity

/-- The division chain preserves non-negativity of the accumulator. -/
theorem evalOps_nonneg (acc : ℚ) (cs : List Char) :
    ∀ v : ℚ, 0 ≤ acc → evalOps acc cs = some v → 0 ≤ v := by
  induction acc, cs using evalOps.induct with
  | case1 acc =>
    intro v h0 h
    rw [evalOps.eq_1] at h
    cases h; exact h0
  | case2 acc rest hlit =>
    intro v h0 h
    rw [evalOps.eq_2, hlit] at h
    simp at h
  | case3 acc rest hlit =>
    intro v h0 h
    rw [evalOps.eq_2, hlit] at h
    simp at h
  | case4 acc rest w hlit hw ih =>
    intro v h0 h
    rw [evalOps.eq_2, hlit] at h
    simp only [hw, if_false] at h
    have hwpos : 0 < w := lt_of_le_of_ne (litVal_nonneg _ w hlit) (Ne.symm hw)
    refine ih v ?_ h
    have hq : (0:ℚ) ≤ acc / w := div_nonneg h0 (le_of_lt hwpos)
    have hfl : (0:ℤ) ≤ ⌊acc / w⌋ := Int.floor_nonneg.mpr hq
    exact_mod_cast hfl
  | case5 acc rest hne hlit =>
    intro v h0 h
    rw [evalOps.eq_3 acc rest hne, hlit] at h
    simp at h
  | case6 acc rest hne hlit =>
    intro v h0 h
    rw [evalOps.eq_3 acc rest hne, hlit] at h
    simp at h
  | case7 acc rest hne w hlit hw ih =>
    intro v h0 h
    rw [evalOps.eq_3 acc rest hne, hlit] at h
    simp only [hw, if_false] at h
    have hwpos : 0 < w := lt_of_le_of_ne (litVal_nonneg _ w hlit) (Ne.symm hw)
    exact ih v (div_nonneg h0 (le_of_lt hwpos)) h
  | case8 acc cs h1 h2 h3 =>
    intro v h0 h
    rw [evalOps.eq_4 acc cs h1 h2 h3] at h
    cases h

/-- `eval` of a `qty` token yields a non-negative amount. -/
theorem pyEvalToken_nonneg (t : String) (v : ℚ) (h : pyEvalToken t = some v) : 0 ≤ v := by
  unfold pyEvalToken at h
  split at h
  · cases h
  · rename_i w hw
    exact evalOps_nonneg w _ v (litVal_nonneg _ w hw) h

/-- A successful `checkUnitAt` yields an ASCII letter and a non-empty name
that is a suffix of the fragment. -/
theorem checkUnitAt_spec (rest : List Char) (k : ℕ) (u : Char) (nm : List Char)
    (h : checkUnitAt rest k = some (u, nm)) :
    isAsciiLetter u = true ∧ ∃ j, nm = rest.drop j ∧ nm ≠ [] := by
  unfold checkUnitAt at h
  split at h
  · rename_i u' s' c' cs' hm
    split at h
    · rename_i hcond
      simp only [Option.some.injEq, Prod.mk.injEq] at h
      obtain ⟨hu, hnm⟩ := h
      subst hu
      simp only [Bool.and_eq_true] at hcond
      refine ⟨hcond.1, k + 2, ?_, by simp [← hnm]⟩
      have : rest.drop (k + 2) = (rest.drop k).drop 2 := by
        rw [List.drop_drop]
      rw [this, hm, ← hnm]
      rfl
    · cases h
  · cases h

/-- A successful `tryUnit` yields an ASCII letter and a non-empty name that
is a suffix of the fragment. -/
theorem tryUnit_spec (rest : List Char) (k : ℕ) (u : Char) (nm : List Char)
    (h : tryUnit rest k = some (u, nm)) :
    isAsciiLetter u = true ∧ ∃ j, nm = rest.drop j ∧ nm ≠ [] := by
  induction k with
  | zero => exact checkUnitAt_spec rest 0 u nm h
  | succ k ih =>
    rw [tryUnit] at h
    cases hc : checkUnitAt rest (k + 1) with
    | some p =>
      rw [hc] at h
      cases h
      exact checkUnitAt_spec rest (k + 1) u nm hc
    | none =>
      rw [hc] at h
      exact ih h

/-- A successful `tryQty` yields an ASCII letter unit and a non-empty name
that is a suffix of the fragment. -/
theorem tryQty_spec (f : List Char) (l : ℕ) (q : Option (List Char)) (u : Char)
    (nm : List Char) (h : tryQty f l = some (q, u, nm)) :
    isAsciiLetter u = true ∧ ∃ j, nm = f.drop j ∧ nm ≠ [] := by
  induction l with
  | zero =>
    rw [tryQty] at h
    cases ht : tryUnit f (f.takeWhile isPySpace).length with
    | some p =>
      rw [ht] at h
      cases h
      exact tryUnit_spec f _ p.1 p.2 ht
    | none => rw [ht] at h; cases h
  | succ l ih =>
    rw [tryQty] at h
    cases ht : tryUnit (f.drop (l + 1)) ((f.drop (l + 1)).takeWhile isPySpace).length with
    | some p =>
      rw [ht] at h
      cases h
      obtain ⟨hu, j, hj, hne⟩ := tryUnit_spec (f.drop (l + 1)) _ p.1 p.2 ht
      refine ⟨hu, (l + 1) + j, ?_, hne⟩
      rw [hj]
      exact List.drop_drop j (l + 1) f
    | none =>
      rw [ht] at h
      exact ih h

/-- The head of `dropWhile p` never satisfies `p`. -/
theorem head_dropWhile_false (p : Char → Bool) (l : List Char) (c : Char)
    (h : (l.dropWhile p).head? = some c) : p c = false := by
  induction l with
  | nil => simp [List.dropWhile] at h
  | cons x xs ih =>
    rw [List.dropWhile_cons] at h
    split at h
    · exact ih h
    · rename_i hx
      simp only [List.head?_cons, Option.some.injEq] at h
      subst h
      simp_all

/-- A stripped list, when non-empty, ends with a non-whitespace character. -/
theorem pyStripL_getLast (l : List Char) (hne : pyStripL l ≠ []) :
    ∃ c, (pyStripL l).getLast? = some c ∧ isPySpace c = false := by
  unfold pyStripL at *
  rw [List.getLast?_reverse]
  cases hY : ((l.dropWhile isPySpace).reverse.dropWhile isPySpace) with
  | nil => rw [hY] at hne; simp at hne
  | cons c t =>
    refine ⟨c, rfl, ?_⟩
    exact head_dropWhile_false isPySpace (l.dropWhile isPySpace).reverse c (by rw [hY]; rfl)

/-- A list containing a non-whitespace character strips to a non-empty list. -/
theorem pyStripL_ne_nil (l : List Char) (c : Char) (hc : c ∈ l)
    (hcs : isPySpace c = false) : pyStripL l ≠ [] := by
  intro h
  unfold pyStripL at h
  rw [List.reverse_eq_nil_iff, List.dropWhile_eq_nil_iff] at h
  have hc2 : c ∈ l.dropWhile isPySpace := by
    have happ := List.takeWhile_append_dropWhile (p := isPySpace) (l := l)
    rcases List.mem_append.mp (by rw [happ]; exact hc) with h1 | h2
    · have := List.mem_takeWhile_imp h1
      rw [hcs] at this
      cases this
    · exact h2
  have := h c (by simpa using hc2)
  rw [hcs] at this
  cases this

/-- A non-empty suffix has the same last element as the whole list. -/
theorem getLast?_drop_of_ne_nil (l : List Char) (j : ℕ) (hne : l.drop j ≠ []) :
    (l.drop j).getLast? = l.getLast? := by
  rw [List.getLast?_drop]
  split
  · rename_i hlen
    rw [List.drop_eq_nil_iff_le.mpr hlen] at hne
    cases hne rfl
  · rfl

/-- The last element of a list is a member. -/
theorem mem_of_getLast?_eq (l : List Char) (c : Char) (h : l.getLast? = some c) :
    c ∈ l := by
  have hx : c ∈ l.getLast? := by rw [Option.mem_def, h]
  obtain ⟨hne, hc⟩ := List.mem_getLast?_eq_getLast hx
  exact hc ▸ List.getLast_mem hne

/-- Claim C8: every entry returned by `parse_ingredient_line` has a
non-negative amount and a non-empty name (unmatched fragments are dropped by
construction, producing no entry). -/
theorem claim8_parser_invariant (line : String) (e : Ingredient)
    (he : e ∈ parse_ingredient_line line) : 0 ≤ e.amount ∧ e.name ≠ "" := by
  rw [parse_ingredient_line, List.mem_filterMap] at he
  obtain ⟨f, hf, hfe⟩ := he
  rw [fragmentsOf, List.mem_filter] at hf
  obtain ⟨hfmem, hfne'⟩ := hf
  rw [List.mem_map] at hfmem
  obtain ⟨i, _, hfi⟩ := hfmem
  have hfne : f ≠ "" := by simpa using hfne'
  have hfdata : f.data = pyStripL i.data := by rw [← hfi]; rfl
  have hfdne : f.data ≠ [] := by
    intro h0
    apply hfne
    cases f
    simp only at h0
    rw [h0]
  obtain ⟨c, hcl, hcs⟩ := pyStripL_getLast i.data (by rw [← hfdata]; exact hfdne)
  rw [← hfdata] at hcl
  rw [fragEntry, Option.map_eq_some'] at hfe
  obtain ⟨m, hm, hme⟩ := hfe
  obtain ⟨hu, j, hj, hjne⟩ := tryQty_spec f.data _ m.1 m.2.1 m.2.2 hm
  subst hme
  constructor
  · show (0:ℚ) ≤ (match m.1 with
      | none => (1:ℚ)
      | some t => (pyEvalToken (String.mk t)).getD 1)
    cases hq : m.1 with
    | none => norm_num
    | some t =>
      cases hev : pyEvalToken (String.mk t) with
      | none => simp [hev]
      | some w =>
        have := pyEvalToken_nonneg _ w hev
        simpa [hev] using this
  · show pyStrip (String.mk m.2.2) ≠ ""
    intro hname
    have hstrip : pyStripL m.2.2 = [] := by
      have h2 : (pyStrip (String.mk m.2.2)).data = pyStripL m.2.2 := rfl
      rw [hname] at h2
      exact h2.symm
    have hlast : m.2.2.getLast? = f.data.getLast? := by
      rw [hj]
      exact getLast?_drop_of_ne_nil f.data j (hj ▸ hjne)
    rw [hcl] at hlast
    exact pyStripL_ne_nil m.2.2 c (mem_of_getLast?_eq m.2.2 c hlast) hcs hstrip

/-- Witness for claim C8 at the concrete line `"c rice"` (a fragment with no
quantity token, so the amount defaults to 1). -/
theorem claim8_witness :
    (⟨1, "c", "rice", renderRound2 1⟩ : Ingredient) ∈ parse_ingredient_line "c rice" ∧
    (0 ≤ ((⟨1, "c", "rice", renderRound2 1⟩ : Ingredient)).amount ∧
      ((⟨1, "c", "rice", renderRound2 1⟩ : Ingredient)).name ≠ "") :=
  ⟨by with_unfolding_all decide,
   claim8_parser_invariant "c rice" _ (by with_unfolding_all decide)⟩

/-- An ASCII letter is not whitespace. -/
theorem isAsciiLetter_not_space (c : Char) (h : isAsciiLetter c = true) :
    isPySpace c = false := by
  by_contra hcon
  rw [Bool.not_eq_false] at hcon
  unfold isPySpace at hcon
  simp only [Bool.or_eq_true, beq_iff_eq] at hcon
  rcases hcon with ((((h1 | h1) | h1) | h1) | h1) | h1 <;>
    (subst h1; exact absurd h (by decide))

/-- Stripping a single non-whitespace character is the identity. -/
theorem pyStripL_singleton (u : Char) (h : isPySpace u = false) :
    pyStripL [u] = [u] := by
  simp [pyStripL, List.dropWhile_cons, h]

/-- Claim C10: every entry returned by `parse_ingredient_line` has a unit
that is exactly one ASCII letter. -/
theorem claim10_unit_single_letter (line : String) (e : Ingredient)
    (he : e ∈ parse_ingredient_line line) :
    e.unit.length = 1 ∧ e.unit.data.all isAsciiLetter = true := by
  rw [parse_ingredient_line, List.mem_filterMap] at he
  obtain ⟨f, hf, hfe⟩ := he
  rw [fragEntry, Option.map_eq_some'] at hfe
  obtain ⟨m, hm, hme⟩ := hfe
  obtain ⟨hu, -, -, -⟩ := tryQty_spec f.data _ m.1 m.2.1 m.2.2 hm
  subst hme
  have hns : isPySpace m.2.1 = false := isAsciiLetter_not_space m.2.1 hu
  have hdata : (pyStrip (String.mk [m.2.1])).data = [m.2.1] := by
    show pyStripL [m.2.1] = [m.2.1]
    exact pyStripL_singleton m.2.1 hns
  constructor
  · show (pyStrip (String.mk [m.2.1])).length = 1
    rw [String.length, hdata]
    rfl
  · show (pyStrip (String.mk [m.2.1])).data.all isAsciiLetter = true
    rw [hdata]
    simpa using hu

/-- Witness for claim C10 at the concrete line `"3 g sugar"`. -/
theorem claim10_witness :
    (⟨3, "g", "sugar", renderRound2 3⟩ : Ingredient) ∈ parse_ingredient_line "3 g sugar" ∧
    ((⟨3, "g", "sugar", renderRound2 3⟩ : Ingredient)).unit.length = 1 ∧
    ((⟨3, "g", "sugar", renderRound2 3⟩ : Ingredient)).unit.data.all isAsciiLetter = true :=
  ⟨by with_unfolding_all decide,
   claim10_unit_single_letter "3 g sugar" _ (by with_unfolding_all decide)⟩
